import Mathlib

/-!
Formal model of the SecureVote repository (RSA blind-signature credential
engine and anonymous ballot ledger), shallowly embedded in Lean 4.

Sources modelled:
- src/backend/blind_signature.py (Chaum RSA blind signatures over SHA-256)
- src/backend/voter_registry.py + src/backend/database.py (issuance state machine)
- src/backend/api.py (API-level validation surrounding the core)
- src/blockchain/blockchain.py (hash-chained proof-of-work ballot ledger)

Machine integers are modelled as `Nat` with explicit reduction `% 2^32`
where the SHA-256 compression function overflows; byte strings are
`List Nat` (each entry `< 256`); Python floats that only ever flow into
JSON serialization (timestamps) are modelled by their JSON rendering as a
`String`.
-/

set_option maxRecDepth 100000

namespace SecureVote

/-! ### SHA-256 (hashlib.sha256 / Crypto.Hash.SHA256)

A byte-level executable model of SHA-256, used by `Block._compute_hash`,
`token_hash` and the hash-to-integer step of the blind-signature scheme.
All word arithmetic is `Nat` reduced modulo `2^32`. -/

/-- `2^32`, the word modulus of SHA-256. -/
def M32 : Nat := 4294967296

/-- Rotate a 32-bit word right by `k`. -/
def rotr32 (x k : Nat) : Nat := ((x >>> k) ||| (x <<< (32 - k))) % M32

/-- The 64 SHA-256 round constants. -/
def shaK : List Nat :=
  [1116352408, 1899447441, 3049323471, 3921009573, 961987163, 1508970993,
   2453635748, 2870763221, 3624381080, 310598401, 607225278, 1426881987,
   1925078388, 2162078206, 2614888103, 3248222580, 3835390401, 4022224774,
   264347078, 604807628, 770255983, 1249150122, 1555081692, 1996064986,
   2554220882, 2821834349, 2952996808, 3210313671, 3336571891, 3584528711,
   113926993, 338241895, 666307205, 773529912, 1294757372, 1396182291,
   1695183700, 1986661051, 2177026350, 2456956037, 2730485921, 2820302411,
   3259730800, 3345764771, 3516065817, 3600352804, 4094571909, 275423344,
   430227734, 506948616, 659060556, 883997877, 958139571, 1322822218,
   1537002063, 1747873779, 1955562222, 2024104815, 2227730452, 2361852424,
   2428436474, 2756734187, 3204031479, 3329325298]

/-- The eight 32-bit working registers of the SHA-256 compression function. -/
structure Sha8 where
  a : Nat
  b : Nat
  c : Nat
  d : Nat
  e : Nat
  f : Nat
  g : Nat
  hh : Nat
deriving Repr, DecidableEq

/-- Initial SHA-256 state. -/
def shaInit : Sha8 :=
  ⟨1779033703, 3144134277, 1013904242, 2773480762,
   1359893119, 2600822924, 528734635, 1541459225⟩

/-- Fixed-width big-endian byte rendering of `x` (`int.to_bytes(len, "big")`). -/
def natToBytesBE : Nat → Nat → List Nat
  | 0, _ => []
  | k + 1, x => natToBytesBE k (x >>> 8) ++ [x % 256]

/-- Big-endian bytes to integer (`int.from_bytes(bytes, "big")`). -/
def bytesToNat (bs : List Nat) : Nat := bs.foldl (fun acc b => acc * 256 + b) 0

/-- SHA-256 message padding: append `0x80`, zeros to 56 mod 64, then the
bit length as 8 big-endian bytes. -/
def sha256Pad (msg : List Nat) : List Nat :=
  let L := msg.length
  let k := (119 - (L % 64)) % 64
  msg ++ 128 :: (List.replicate k 0 ++ natToBytesBE 8 (8 * L))

/-- Group bytes into big-endian 32-bit words. -/
def bytesToWords : List Nat → List Nat
  | b0 :: b1 :: b2 :: b3 :: rest =>
      ((((b0 <<< 8) ||| b1) <<< 8 ||| b2) <<< 8 ||| b3) :: bytesToWords rest
  | _ => []

/-- Split a byte list into 64-byte chunks (`fuel` bounds the recursion and is
instantiated with the list length, which always suffices). -/
def chunks64Aux : Nat → List Nat → List (List Nat)
  | 0, _ => []
  | _, [] => []
  | fuel + 1, x :: xs => ((x :: xs).take 64) :: chunks64Aux fuel ((x :: xs).drop 64)

/-- Split a byte list into 64-byte chunks. -/
def chunks64 (l : List Nat) : List (List Nat) := chunks64Aux l.length l

/-- List lookup with default 0, used by the message-schedule recursion. -/
def sget (l : List Nat) (i : Nat) : Nat := (l.get? i).getD 0

/-- Extend the message schedule; `acc` holds the words generated so far,
most recent first. -/
def schedRev : Nat → List Nat → List Nat
  | 0, acc => acc
  | f + 1, acc =>
      let w2 := sget acc 1
      let w7 := sget acc 6
      let w15 := sget acc 14
      let w16 := sget acc 15
      let s0 := rotr32 w15 7 ^^^ rotr32 w15 18 ^^^ (w15 >>> 3)
      let s1 := rotr32 w2 17 ^^^ rotr32 w2 19 ^^^ (w2 >>> 10)
      schedRev f (((w16 + s0 + w7 + s1) % M32) :: acc)

/-- One round of the SHA-256 compression function. -/
def shaRound (st : Sha8) (kw : Nat × Nat) : Sha8 :=
  let S1 := rotr32 st.e 6 ^^^ rotr32 st.e 11 ^^^ rotr32 st.e 25
  let ch := (st.e &&& st.f) ^^^ ((st.e ^^^ 4294967295) &&& st.g)
  let temp1 := (st.hh + S1 + ch + kw.1 + kw.2) % M32
  let S0 := rotr32 st.a 2 ^^^ rotr32 st.a 13 ^^^ rotr32 st.a 22
  let maj := (st.a &&& st.b) ^^^ (st.a &&& st.c) ^^^ (st.b &&& st.c)
  let temp2 := (S0 + maj) % M32
  ⟨(temp1 + temp2) % M32, st.a, st.b, st.c, (st.d + temp1) % M32, st.e, st.f, st.g⟩

/-- Process one 64-byte chunk. -/
def shaChunk (st : Sha8) (chunk : List Nat) : Sha8 :=
  let ws := (schedRev 48 (bytesToWords chunk).reverse).reverse
  let r := (shaK.zip ws).foldl shaRound st
  ⟨(st.a + r.a) % M32, (st.b + r.b) % M32, (st.c + r.c) % M32, (st.d + r.d) % M32,
   (st.e + r.e) % M32, (st.f + r.f) % M32, (st.g + r.g) % M32, (st.hh + r.hh) % M32⟩

/-- SHA-256 digest of a byte string, as eight 32-bit words. -/
def sha256Words (msg : List Nat) : List Nat :=
  let st := (chunks64 (sha256Pad msg)).foldl shaChunk shaInit
  [st.a, st.b, st.c, st.d, st.e, st.f, st.g, st.hh]

/-- SHA-256 digest of a byte string, as 32 bytes (`.digest()`). -/
def sha256Bytes (msg : List Nat) : List Nat :=
  (sha256Words msg).foldr (fun w acc => natToBytesBE 4 w ++ acc) []

/-- Lowercase hex digit. -/
def hexDigit (d : Nat) : Char := Char.ofNat (if d < 10 then 48 + d else 87 + d)

/-- Two lowercase hex characters of one byte. -/
def byteHex (b : Nat) : List Char := [hexDigit (b / 16), hexDigit (b % 16)]

/-- Lowercase hex string of a byte string (`.hexdigest()` composition). -/
def bytesToHex (bs : List Nat) : String :=
  String.mk (bs.foldr (fun b acc => byteHex b ++ acc) [])

/-- SHA-256 lowercase hex digest of a byte string (`.hexdigest()`). -/
def sha256Hex (msg : List Nat) : String := bytesToHex (sha256Bytes msg)

/-- ASCII bytes of a string (valid here: every string hashed in this model
is produced by the `ensure_ascii` JSON serializer or is itself hex/ASCII). -/
def strBytes (s : String) : List Nat := s.data.map Char.toNat

/-! ### Canonical JSON serialization (json.dumps(..., sort_keys=True))

`Block._compute_hash` hashes `json.dumps({...}, sort_keys=True).encode()`.
With default options `json.dumps` separates items by `", "`, keys by `": "`,
sorts keys lexicographically, and (`ensure_ascii=True`) escapes every
character outside printable ASCII, so its output is pure ASCII.
Python float timestamps are modelled by their JSON rendering (a `String`
spliced verbatim, as `json.dumps` renders a float). -/

/-- `\uXXXX` escape of a code unit `n < 0x10000`. -/
def uEscape (n : Nat) : List Char :=
  [Char.ofNat 92, 'u', hexDigit (n / 4096 % 16), hexDigit (n / 256 % 16),
   hexDigit (n / 16 % 16), hexDigit (n % 16)]

/-- JSON escaping of one character, following CPython's
`py_encode_basestring_ascii`: backslash and quote get two-character escapes,
printable ASCII passes through, `\n \r \t \b \f` get short escapes, and
everything else becomes `\uXXXX` (a surrogate pair above the BMP). -/
def escapeChar (c : Char) : List Char :=
  let n := c.toNat
  if c = '\\' then ['\\', '\\']
  else if c = '"' then ['\\', '"']
  else if 32 ≤ n && n ≤ 126 then [c]
  else if c = '\n' then ['\\', 'n']
  else if c = '\r' then ['\\', 'r']
  else if c = '\t' then ['\\', 't']
  else if n = 8 then ['\\', 'b']
  else if n = 12 then ['\\', 'f']
  else if n < 65536 then uEscape n
  else uEscape (55296 + (n - 65536) / 1024) ++ uEscape (56320 + (n - 65536) % 1024)

/-- JSON string literal for `s` (quotes plus escaping). -/
def pyJsonStr (s : String) : String :=
  String.mk ('"' :: s.data.foldr (fun c acc => escapeChar c ++ acc) ['"'])

/-- `", "`-join, as `json.dumps` renders list items. -/
def joinCommaSp : List String → String
  | [] => ""
  | [x] => x
  | x :: y :: rest => x ++ ", " ++ joinCommaSp (y :: rest)

/-! ### The ballot ledger (src/blockchain/blockchain.py) -/

/-- The compiled-in candidate whitelist `CANDIDATES`. -/
def CANDIDATES : List String := ["Candidate A", "Candidate B", "Candidate C"]

/-- `Blockchain.DIFFICULTY`: leading zero hex digits required of a mined hash. -/
def DIFFICULTY : Nat := 2

/-- `"0" * DIFFICULTY`, the proof-of-work target. -/
def difficultyZeros : String := String.mk (List.replicate DIFFICULTY '0')

/-- `"0" * 64`, the genesis `previous_hash`. -/
def zeros64 : String := String.mk (List.replicate 64 '0')

/-- `s.startswith(p)`. -/
def strStartsWith (s p : String) : Bool := s.data.take p.data.length == p.data

/-- A vote record `{"token_hash", "candidate", "timestamp", "signature"}`
(timestamp = JSON rendering of the `time.time()` float). -/
structure Vote where
  token_hash : String
  candidate : String
  timestamp : String
  signature : String
deriving Repr, DecidableEq

/-- `json.dumps` of a vote record with `sort_keys=True`
(key order: candidate, signature, timestamp, token_hash). -/
def voteJson (v : Vote) : String :=
  "\x7b\"candidate\": " ++ pyJsonStr v.candidate ++ ", \"signature\": " ++
    pyJsonStr v.signature ++ ", \"timestamp\": " ++ v.timestamp ++
    ", \"token_hash\": " ++ pyJsonStr v.token_hash ++ "\x7d"

/-- A block; `hash` is the stored hash field (set by the constructor,
overridden by `from_dict` on load). -/
structure Block where
  index : Nat
  timestamp : String
  votes : List Vote
  previous_hash : String
  nonce : Nat
  hash : String
deriving Repr, DecidableEq

/-- The serialized content hashed by `Block._compute_hash`: `json.dumps` of
the five fields with `sort_keys=True`
(key order: index, nonce, previous_hash, timestamp, votes). -/
def blockJson (index : Nat) (timestamp : String) (votes : List Vote)
    (previous_hash : String) (nonce : Nat) : String :=
  "\x7b\"index\": " ++ toString index ++ ", \"nonce\": " ++ toString nonce ++
    ", \"previous_hash\": " ++ pyJsonStr previous_hash ++
    ", \"timestamp\": " ++ timestamp ++
    ", \"votes\": [" ++ joinCommaSp (votes.map voteJson) ++ "]\x7d"

/-- `Block._compute_hash`: SHA-256 hex digest of the canonical JSON of the
stored fields (the stored `hash` field itself is not part of the input). -/
def computeHash (b : Block) : String :=
  sha256Hex (strBytes (blockJson b.index b.timestamp b.votes b.previous_hash b.nonce))

/-- `Block.__init__`: records the fields and computes `hash` from them. -/
def Block.init (index : Nat) (timestamp : String) (votes : List Vote)
    (previous_hash : String) (nonce : Nat) : Block :=
  ⟨index, timestamp, votes, previous_hash, nonce,
   sha256Hex (strBytes (blockJson index timestamp votes previous_hash nonce))⟩

/-- The genesis block built by `Blockchain._load_or_init`: index 0, empty
votes, `previous_hash = "0"*64`, nonce 0, and — notably — no call to
`_proof_of_work`. -/
def genesisBlock (ts : String) : Block := Block.init 0 ts [] zeros64 0

/-- Ledger state: the chain, the pending list, and the spent-token set
(modelled as a duplicate-free list; the only insertion site first checks
membership). -/
structure LedgerState where
  chain : List Block
  pending_votes : List Vote
  spent_tokens : List String
deriving Repr, DecidableEq

/-- `Blockchain._proof_of_work`: repeatedly bump `nonce` and recompute
`hash` until the hash starts with `DIFFICULTY` zeros. The Python loop is
unbounded; `fuel` bounds the model, `none` meaning the bound was hit. -/
def proofOfWork (fuel : Nat) (b : Block) : Option Block :=
  if strStartsWith b.hash difficultyZeros then some b
  else
    match fuel with
    | 0 => none
    | f + 1 =>
        proofOfWork f
          ⟨b.index, b.timestamp, b.votes, b.previous_hash, b.nonce + 1,
           computeHash ⟨b.index, b.timestamp, b.votes, b.previous_hash, b.nonce + 1, b.hash⟩⟩

/-- The error kinds `cast_vote` can report. The Python messages are
`"Invalid candidate. Choose from: ..."` and
`"Token already used — double-voting prevented"`. -/
inductive CastError where
  | invalidCandidate
  | doubleVote
deriving Repr, DecidableEq

/-- The result dict of `cast_vote`. -/
structure CastResult where
  success : Bool
  error : Option CastError
  tx_hash : Option String
  block_index : Option Nat
deriving Repr, DecidableEq

/-- `Blockchain.cast_vote`. The two `time.time()` reads are passed in as
`ts1` (vote record) and `ts2` (block); `fuel` bounds the mining loop.
`none` models the unmodelled executions: mining past `fuel`, or the crash
on an empty chain (`self.chain[-1]`). Checks run in source order:
candidate whitelist, then spent-set; failures return the state unchanged. -/
def castVote (s : LedgerState) (token_hash candidate signature_hex : String)
    (ts1 ts2 : String) (fuel : Nat) : Option (CastResult × LedgerState) :=
  if !(CANDIDATES.contains candidate) then
    some (⟨false, some CastError.invalidCandidate, none, none⟩, s)
  else if s.spent_tokens.contains token_hash then
    some (⟨false, some CastError.doubleVote, none, none⟩, s)
  else
    match s.chain.getLast? with
    | none => none
    | some lastB =>
        let vote : Vote := ⟨token_hash, candidate, ts1, signature_hex⟩
        let b0 := Block.init s.chain.length ts2 [vote] lastB.hash 0
        match proofOfWork fuel b0 with
        | none => none
        | some mined =>
            some (⟨true, none, some mined.hash, some mined.index⟩,
                  ⟨s.chain ++ [mined], [], s.spent_tokens ++ [token_hash]⟩)

/-- One entry update of the tallies dict (`tallies[candidate] += 1`). -/
def bumpTally (t : List (String × Nat)) (cand : String) : List (String × Nat) :=
  t.map fun p => if p.1 = cand then (p.1, p.2 + 1) else p

/-- `candidate in tallies` (dict key membership). -/
def tallyHasKey (t : List (String × Nat)) (cand : String) : Bool :=
  t.any fun p => p.1 == cand

/-- The per-vote step of `get_tallies`:
`if candidate in tallies: tallies[candidate] += 1`. -/
def applyVote (t : List (String × Nat)) (v : Vote) : List (String × Nat) :=
  if tallyHasKey t v.candidate then bumpTally t v.candidate else t

/-- `Blockchain.get_tallies`: a dict zero-initialized on `CANDIDATES`
(insertion order preserved), then incremented per vote of blocks 1..end,
skipping candidates that are not dict keys. -/
def getTallies (s : LedgerState) : List (String × Nat) :=
  let init := CANDIDATES.map fun c => (c, 0)
  (s.chain.drop 1).foldl (fun t b => b.votes.foldl applyVote t) init

/-- `Blockchain.get_block`: `if 0 <= index < len(self.chain)` return the
block, else `None`. -/
def getBlock (s : LedgerState) (index : Int) : Option Block :=
  if h : 0 ≤ index ∧ index < s.chain.length then
    some (s.chain.get ⟨index.toNat, by omega⟩)
  else none

/-- The dict returned by `Blockchain.get_stats`. -/
structure Stats where
  block_count : Nat
  total_votes : Nat
  spent_tokens : Nat
  candidates : List String
deriving Repr, DecidableEq

/-- `Blockchain.get_stats`. -/
def getStats (s : LedgerState) : Stats :=
  ⟨s.chain.length, ((s.chain.drop 1).map (fun b => b.votes.length)).sum,
   s.spent_tokens.length, CANDIDATES⟩

/-- The loop body of `Blockchain._is_valid`, walking consecutive pairs:
recomputed hash must match the stored hash, and `previous_hash` must match
the predecessor's stored hash. -/
def chainOkFrom : Block → List Block → Bool
  | _, [] => true
  | prev, cur :: rest =>
      (cur.hash == computeHash cur) && (cur.previous_hash == prev.hash) &&
        chainOkFrom cur rest

/-- `Blockchain._is_valid`: the loop starts at index 1; chains of length
0 or 1 are vacuously valid. -/
def isValid (chain : List Block) : Bool :=
  match chain with
  | [] => true
  | b :: rest => chainOkFrom b rest

/-- The dict returned by `Blockchain.verify_chain`. -/
structure VerifyReport where
  valid : Bool
  block_count : Nat
  message : String
deriving Repr, DecidableEq

/-- `Blockchain.verify_chain`. -/
def verifyChain (s : LedgerState) : VerifyReport :=
  ⟨isValid s.chain, s.chain.length,
   if isValid s.chain then "Chain integrity verified" else "Chain integrity FAILED"⟩

/-! ### Blind-signature primitives (src/backend/blind_signature.py)

RSA keys are modelled by their numeric components: `load_private_key` /
`load_public_key` only ever extract `n`, `e`, `d` from the PEM text, so a
key *is* its numbers here. -/

/-- Issuer public key `(n, e)`. -/
structure PubKey where
  n : Nat
  e : Nat
deriving Repr, DecidableEq

/-- Issuer private key `(n, d)`. -/
structure PrivKey where
  n : Nat
  d : Nat
deriving Repr, DecidableEq

/-- `x.bit_length()`. -/
def bitLength (x : Nat) : Nat := if x = 0 then 0 else Nat.log2 x + 1

/-- `x.to_bytes((x.bit_length() + 7) // 8, "big")`: minimal big-endian
byte rendering (empty for `x = 0`). -/
def natToBytesMin (x : Nat) : List Nat := natToBytesBE ((bitLength x + 7) / 8) x

/-- The exit condition of the blinding-factor sampling loop in
`blind_token`: `r = int(urandom) % n` (hence `r < n`), accepted once
`r > 1 and pow(r, 1, n) != 0`. No coprimality test against `n` is made. -/
def BlindingDraw (n r : Nat) : Prop := r < n ∧ 1 < r ∧ r % n ≠ 0

instance (n r : Nat) : Decidable (BlindingDraw n r) := by
  unfold BlindingDraw; infer_instance

/-- `blind_token` with the accepted random draw `r` made explicit:
`m = int(SHA256(token)) % n`, `blinded = m * pow(r, e, n) % n`, returned
as minimal big-endian bytes together with `r`. -/
def blind_token (token : List Nat) (pub : PubKey) (r : Nat) : List Nat × Nat :=
  let m := bytesToNat (sha256Bytes token) % pub.n
  let r_e := r ^ pub.e % pub.n
  let blinded := m * r_e % pub.n
  (natToBytesMin blinded, r)

/-- `blind_sign`: `pow(int.from_bytes(blinded_bytes), d, n)`. -/
def blind_sign (blinded_bytes : List Nat) (priv : PrivKey) : Nat :=
  bytesToNat blinded_bytes ^ priv.d % priv.n

/-- CPython `pow(r, -1, n)`: the modular inverse via extended gcd,
raising (`none`) when `gcd(r, n) ≠ 1` or the modulus is zero. -/
def pyModInv (r n : Nat) : Option Nat :=
  if n = 0 then none
  else if Nat.gcd r n = 1 then some (((Nat.gcdA r n % (n : Int)) + n) % n).toNat
  else none

/-- `unblind_signature`: `sig = blind_sig * pow(r, -1, n) % n`; `none`
models the `ValueError` of a non-invertible blinding factor. -/
def unblind_signature (blind_sig_int blinding_factor : Nat) (pub : PubKey) : Option Nat :=
  (pyModInv blinding_factor pub.n).map fun r_inv => blind_sig_int * r_inv % pub.n

/-- `verify_signature`: `pow(signature_int, e, n) == int(SHA256(token)) % n`. -/
def verify_signature (token : List Nat) (signature_int : Nat) (pub : PubKey) : Bool :=
  signature_int ^ pub.e % pub.n == bytesToNat (sha256Bytes token) % pub.n

/-- `token_hash` (the nullifier): SHA-256 lowercase hex of the token bytes. -/
def tokenHash (token : List Nat) : String := sha256Hex token

/-- An RSA keypair as the spec's data model describes it: `n` the product
of two distinct primes and `e·d ≡ 1 (mod φ(n))`, the private and public
halves sharing the modulus. -/
def IsRSAKeypair (p q : Nat) (priv : PrivKey) (pub : PubKey) : Prop :=
  p.Prime ∧ q.Prime ∧ p ≠ q ∧ priv.n = p * q ∧ pub.n = p * q ∧
    pub.e * priv.d ≡ 1 [MOD Nat.totient (p * q)]

instance (p q : Nat) (priv : PrivKey) (pub : PubKey) :
    Decidable (IsRSAKeypair p q priv pub) := by
  unfold IsRSAKeypair; infer_instance

/-! ### Transport codecs (base64 / hex / strip) -/

/-- Value of a base64 alphabet character. -/
def b64CharVal (c : Char) : Option Nat :=
  let n := c.toNat
  if 65 ≤ n && n ≤ 90 then some (n - 65)
  else if 97 ≤ n && n ≤ 122 then some (n - 97 + 26)
  else if 48 ≤ n && n ≤ 57 then some (n - 48 + 52)
  else if c = '+' then some 62
  else if c = '/' then some 63
  else none

/-- Decode filtered base64 characters in groups of four, handling the
`=` padding of the final group. -/
def b64DecodeGroups : List Char → Option (List Nat)
  | [] => some []
  | c1 :: c2 :: c3 :: c4 :: rest =>
      match b64CharVal c1, b64CharVal c2 with
      | some v1, some v2 =>
          if c3 = '=' then
            if c4 = '=' && rest.isEmpty then some [v1 * 4 + v2 / 16] else none
          else
            match b64CharVal c3 with
            | some v3 =>
                if c4 = '=' then
                  if rest.isEmpty then some [v1 * 4 + v2 / 16, v2 % 16 * 16 + v3 / 4]
                  else none
                else
                  match b64CharVal c4 with
                  | some v4 =>
                      (b64DecodeGroups rest).map fun tl =>
                        (v1 * 4 + v2 / 16) :: (v2 % 16 * 16 + v3 / 4) ::
                          (v3 % 4 * 64 + v4) :: tl
                  | none => none
            | none => none
      | _, _ => none
  | _ => none

/-- `base64.b64decode` (default `validate=False`): characters outside the
alphabet and `=` are discarded, then the rest must decode in groups of
four; `none` models `binascii.Error`. -/
def pyB64Decode (s : String) : Option (List Nat) :=
  b64DecodeGroups (s.data.filter fun c => (b64CharVal c).isSome || c = '=')

/-- Base64 alphabet character for a 6-bit value. -/
def b64Char (v : Nat) : Char :=
  if v < 26 then Char.ofNat (65 + v)
  else if v < 52 then Char.ofNat (97 + v - 26)
  else if v < 62 then Char.ofNat (48 + v - 52)
  else if v = 62 then '+' else '/'

/-- Encode bytes in groups of three, padding the final group. -/
def b64EncodeGroups : List Nat → List Char
  | [] => []
  | [b1] => [b64Char (b1 / 4), b64Char (b1 % 4 * 16), '=', '=']
  | [b1, b2] => [b64Char (b1 / 4), b64Char (b1 % 4 * 16 + b2 / 16), b64Char (b2 % 16 * 4), '=']
  | b1 :: b2 :: b3 :: rest =>
      b64Char (b1 / 4) :: b64Char (b1 % 4 * 16 + b2 / 16) ::
        b64Char (b2 % 16 * 4 + b3 / 64) :: b64Char (b3 % 64) :: b64EncodeGroups rest

/-- `base64.b64encode(...).decode()`. -/
def pyB64Encode (bs : List Nat) : String := String.mk (b64EncodeGroups bs)

/-- `int_to_b64`: base64 of the minimal big-endian byte rendering. -/
def int_to_b64 (x : Nat) : String := pyB64Encode (natToBytesMin x)

/-- `b64_to_int`: `int.from_bytes(base64.b64decode(s), "big")`. -/
def b64_to_int (s : String) : Option Nat := (pyB64Decode s).map bytesToNat

/-- Value of one hex digit (`bytes.fromhex` accepts both cases). -/
def hexCharVal (c : Char) : Option Nat :=
  let n := c.toNat
  if 48 ≤ n && n ≤ 57 then some (n - 48)
  else if 97 ≤ n && n ≤ 102 then some (n - 97 + 10)
  else if 65 ≤ n && n ≤ 70 then some (n - 65 + 10)
  else none

/-- Decode hex digit pairs (`bytes.fromhex`; the whitespace tolerance of
CPython's implementation is not modelled — no caller here feeds spaced
hex). -/
def hexPairsToBytes : List Char → Option (List Nat)
  | [] => some []
  | c1 :: c2 :: rest =>
      match hexCharVal c1, hexCharVal c2 with
      | some v1, some v2 => (hexPairsToBytes rest).map fun tl => (v1 * 16 + v2) :: tl
      | _, _ => none
  | _ => none

/-- `hex_to_token`: `bytes.fromhex`. -/
def hex_to_token (s : String) : Option (List Nat) := hexPairsToBytes s.data

/-- Python `str.isspace` members relevant to `str.strip()` (ASCII range). -/
def pyIsSpace (c : Char) : Bool :=
  c = ' ' || c = '\t' || c = '\n' || c = '\r' || c.toNat = 11 || c.toNat = 12

/-- Python `str.strip()` (ASCII whitespace; exotic Unicode spaces are not
modelled — no claim depends on them). -/
def pyStrip (s : String) : String :=
  String.mk (((s.data.dropWhile pyIsSpace).reverse.dropWhile pyIsSpace).reverse)

/-! ### Voter registry (src/backend/voter_registry.py, src/backend/database.py)

Registry state is the content of the three SQLite tables that the
registry reads and writes; timestamps columns carry no logic and are
omitted. -/

/-- An issuer key record (the PEM pair, modelled by the key numbers). -/
structure RSAKeys where
  priv : PrivKey
  pub : PubKey
deriving Repr, DecidableEq

/-- Registry persistent state: the `eligible_voters` set, the `voters`
table (`voter_id → token_issued`), and the single `issuer_keys` row. -/
structure RegistryState where
  eligible : List String
  voters : List (String × Bool)
  issuerKeys : Option RSAKeys
deriving Repr, DecidableEq

/-- `database.is_eligible`. -/
def isEligible (s : RegistryState) (vid : String) : Bool := s.eligible.contains vid

/-- `database.has_token_issued`: `false` when no row exists. -/
def hasTokenIssued (s : RegistryState) (vid : String) : Bool :=
  match s.voters.lookup vid with
  | none => false
  | some b => b

/-- `database.register_voter`: insert the row with `token_issued = 1`, or
on conflict update `token_issued` to `1` (the `WHERE token_issued=0`
guard makes the update a no-op on rows already at `1`). -/
def registerVoter (voters : List (String × Bool)) (vid : String) : List (String × Bool) :=
  if (voters.lookup vid).isSome then
    voters.map fun p => if p.1 = vid then (p.1, true) else p
  else voters ++ [(vid, true)]

/-- `database.seed_eligible_voters`: `INSERT OR IGNORE` of each id. -/
def seedEligible (eligible : List String) (ids : List String) : List String :=
  ids.foldl (fun el vid => if el.contains vid then el else el ++ [vid]) eligible

/-- The error kinds `issue_blind_token` can report, in source order:
`"Voter ID not found in eligible voters list"`, `"Token already issued to
this voter"`, `"Issuer not initialized"`, `"Invalid base64 encoding for
blinded token"`. -/
inductive RegError where
  | notEligible
  | alreadyIssued
  | issuerUninitialized
  | invalidBase64
deriving Repr, DecidableEq

/-- The result dict of `issue_blind_token`. -/
structure IssueResult where
  success : Bool
  blind_sig_b64 : Option String
  error : Option RegError
deriving Repr, DecidableEq

/-- `voter_registry.issue_blind_token`: eligibility check, duplicate
check, key lookup, base64 decode, blind-sign, then `register_voter`.
Failures leave the registry unchanged; note there is no character-class
validation of `voter_id` here. -/
def issueBlindToken (s : RegistryState) (vid b64 : String) : IssueResult × RegistryState :=
  if !isEligible s vid then (⟨false, none, some RegError.notEligible⟩, s)
  else if hasTokenIssued s vid then (⟨false, none, some RegError.alreadyIssued⟩, s)
  else
    match s.issuerKeys with
    | none => (⟨false, none, some RegError.issuerUninitialized⟩, s)
    | some keys =>
        match pyB64Decode b64 with
        | none => (⟨false, none, some RegError.invalidBase64⟩, s)
        | some blinded_bytes =>
            let sig := blind_sign blinded_bytes keys.priv
            (⟨true, some (int_to_b64 sig), none⟩,
             ⟨s.eligible, registerVoter s.voters vid, s.issuerKeys⟩)

/-- `voter_registry.bootstrap`: create tables (no data change), generate
and store keys only when absent (`fresh` stands for the random keypair
generation), then seed the given demo voters. -/
def bootstrap (s : RegistryState) (ids : List String) (fresh : RSAKeys) : RegistryState :=
  let keys := match s.issuerKeys with
    | none => some fresh
    | some k => some k
  ⟨seedEligible s.eligible ids, s.voters, keys⟩

/-- The state-mutating registry operations (reads — `voter_status`,
`get_public_key`, `is_eligible` — do not change state and need no case). -/
inductive RegOp where
  | seedOp (ids : List String)
  | issueOp (vid b64 : String)
  | bootstrapOp (ids : List String) (fresh : RSAKeys)
deriving Repr

/-- Apply one registry operation to the state. -/
def applyRegOp (s : RegistryState) : RegOp → RegistryState
  | RegOp.seedOp ids => ⟨seedEligible s.eligible ids, s.voters, s.issuerKeys⟩
  | RegOp.issueOp vid b64 => (issueBlindToken s vid b64).2
  | RegOp.bootstrapOp ids fresh => bootstrap s ids fresh

/-- Apply a sequence of registry operations, oldest first. -/
def applyRegOps (s : RegistryState) (ops : List RegOp) : RegistryState :=
  ops.foldl applyRegOp s

/-! ### API layer (src/backend/api.py, `api_vote`)

The transport wrapper around the ledger: this is where the credential is
actually verified before `cast_vote` is invoked. -/

/-- The outcomes of `api_vote`: the four API-level rejections (in source
order: missing fields, candidate whitelist, decode/key failure — the
`except` around `hex_to_token` / `b64_to_int` / `get_public_key` — and
signature verification), or the ledger's own result passed through. -/
inductive ApiVoteOutcome where
  | rejectedMissing
  | rejectedCandidate
  | rejectedMalformed
  | rejectedCredential
  | ledgerResult (r : CastResult)
deriving Repr, DecidableEq

/-- `api.api_vote`. `pub` is what `get_public_key()` returns (`none` =
uninitialized issuer, whose `RuntimeError` lands in the same `except` as
decode failures). The ledger state is returned unchanged on every
API-level rejection; `cast_vote` runs only after `verify_signature`
succeeds, receiving `token_hash(token_bytes)` and the first 64 chars of
the base64 signature. -/
def apiVote (pub : Option PubKey) (ledger : LedgerState)
    (token_hex sig_b64 candidate : String) (ts1 ts2 : String) (fuel : Nat) :
    Option (ApiVoteOutcome × LedgerState) :=
  let tokh := pyStrip token_hex
  let sigb := pyStrip sig_b64
  let cand := pyStrip candidate
  if tokh = "" || sigb = "" || cand = "" then some (ApiVoteOutcome.rejectedMissing, ledger)
  else if !(CANDIDATES.contains cand) then some (ApiVoteOutcome.rejectedCandidate, ledger)
  else
    match hex_to_token tokh, b64_to_int sigb, pub with
    | some token_bytes, some sig_int, some pk =>
        if !(verify_signature token_bytes sig_int pk) then
          some (ApiVoteOutcome.rejectedCredential, ledger)
        else
          let th := tokenHash token_bytes
          (castVote ledger th cand (String.mk (sigb.data.take 64)) ts1 ts2 fuel).map
            fun r => (ApiVoteOutcome.ledgerResult r.1, r.2)
    | _, _, _ => some (ApiVoteOutcome.rejectedMalformed, ledger)

/-! ### Auxiliary definitions used by the verification statements -/

/-- The fresh-initialization path of `Blockchain._load_or_init`: a chain
holding only the (unmined) genesis block, empty pending list and spent set. -/
def initLedger (ts : String) : LedgerState := ⟨[genesisBlock ts], [], []⟩

/-- Spec-side count (from the spec's words, for refinement statements):
the number of vote records with the given choice in blocks 1..end. -/
def specVoteCount (s : LedgerState) (c : String) : Nat :=
  (((s.chain.drop 1).map fun b => b.votes).flatten.filter fun v => v.candidate == c).length

/-- Spec-side count of vote records in blocks 1..end whose candidate is a
`CANDIDATES` member. -/
def specKnownVoteCount (s : LedgerState) : Nat :=
  (((s.chain.drop 1).map fun b => b.votes).flatten.filter fun v =>
    CANDIDATES.contains v.candidate).length

/-- Sum of all tally values. -/
def tallySum (t : List (String × Nat)) : Nat := (t.map Prod.snd).sum

/-- Spec-side character class `[A-Za-z0-9_]` (from the claim's words). -/
def specWordChar (c : Char) : Bool :=
  let n := c.toNat
  (65 ≤ n && n ≤ 90) || (97 ≤ n && n ≤ 122) || (48 ≤ n && n ≤ 57) || n = 95

/-- A vote record whose candidate is not a `CANDIDATES` member, as a
loaded chain may contain. -/
def malloryVote : Vote := ⟨"cc", "Mallory", "1759276801.5", "s"⟩

/-- A concrete loadable ledger state: correctly hashed and linked chain
(so `_is_valid` accepts it) whose single non-genesis block holds one
vote for the unknown candidate `"Mallory"`. -/
def badChainState : LedgerState :=
  ⟨[genesisBlock "1759276800.123456",
    Block.init 1 "1759276802.5" [malloryVote] (genesisBlock "1759276800.123456").hash 0],
   [], ["cc"]⟩

/-- A small demonstration RSA keypair: `n = 3·5 = 15`, `e = d = 3`
(`3·3 = 9 ≡ 1 (mod φ(15) = 8)`). -/
def demoPriv : PrivKey := ⟨15, 3⟩

/-- Public half of the demonstration keypair. -/
def demoPub : PubKey := ⟨15, 3⟩

/-- The demonstration keypair as an issuer-key record. -/
def demoKeys : RSAKeys := ⟨demoPriv, demoPub⟩

theorem sha256_empty_vector : sha256Hex [] =
    "e3b0c44298fc1c149afbf4c8996fb92427ae41e4649b934ca495991b7852b855" := by decide

theorem sha256_abc_vector : sha256Hex (strBytes "abc") =
    "ba7816bf8f01cfea414140de5dae2223b00361a396177a9cb410ff61f20015ad" := by decide

theorem b64_decode_check : pyB64Decode "Kg==" = some [42] := by decide

theorem hex_decode_check : hex_to_token "2a" = some [42] := by decide

/-- Any block that `_proof_of_work` returns has a hash starting with
`DIFFICULTY` zeros (the loop's exit condition). -/
theorem proofOfWork_pow : ∀ (fuel : Nat) (b mined : Block),
    proofOfWork fuel b = some mined → strStartsWith mined.hash difficultyZeros = true := by
  intro fuel
  induction fuel with
  | zero =>
      intro b mined h
      unfold proofOfWork at h
      by_cases hs : strStartsWith b.hash difficultyZeros = true
      · rw [if_pos hs] at h
        cases h
        exact hs
      · rw [if_neg hs] at h
        cases h
  | succ f ih =>
      intro b mined h
      unfold proofOfWork at h
      by_cases hs : strStartsWith b.hash difficultyZeros = true
      · rw [if_pos hs] at h
        cases h
        exact hs
      · rw [if_neg hs] at h
        exact ih _ _ h

/-! ## C9 — `get_block` is total over all integer indices -/

/-- C9: `get_block` returns the block at position `i` for every
`0 ≤ i < len(chain)`, and `None` for every other integer index (negative
included), never an error. -/
theorem getBlock_total (s : LedgerState) (i : Int) :
    (∀ (h0 : 0 ≤ i) (h : i < (s.chain.length : Int)),
        getBlock s i = some (s.chain.get ⟨i.toNat, by omega⟩)) ∧
    (i < 0 → getBlock s i = none) ∧
    ((s.chain.length : Int) ≤ i → getBlock s i = none) := by
  unfold getBlock
  refine ⟨fun h0 hlt => dif_pos ⟨h0, hlt⟩, fun hneg => dif_neg ?_, fun hge => dif_neg ?_⟩
  · rintro ⟨h1, _⟩
    omega
  · rintro ⟨_, h2⟩
    omega

/-- Witness for C9 at a concrete one-block chain: index 0 hits, `-1` and
`3` return `None`. -/
theorem getBlock_total_witness :
    getBlock ⟨[⟨0, "t", [], "p", 0, "h"⟩], [], []⟩ 0 = some ⟨0, "t", [], "p", 0, "h"⟩ ∧
    getBlock ⟨[⟨0, "t", [], "p", 0, "h"⟩], [], []⟩ (-1) = none ∧
    getBlock ⟨[⟨0, "t", [], "p", 0, "h"⟩], [], []⟩ 3 = none := by
  refine ⟨?_, ?_, ?_⟩
  · exact ((getBlock_total ⟨[⟨0, "t", [], "p", 0, "h"⟩], [], []⟩ 0).1 (by decide)
      (by decide)).trans (by decide)
  · exact (getBlock_total ⟨[⟨0, "t", [], "p", 0, "h"⟩], [], []⟩ (-1)).2.1 (by decide)
  · exact (getBlock_total ⟨[⟨0, "t", [], "p", 0, "h"⟩], [], []⟩ 3).2.2 (by decide)

/-! ## C2 — spent nullifier: rejection without mutation -/

/-- C2 as frozen is falsified by the check order of `cast_vote`: for a
state whose spent set contains `"aa"`, a subsequent `cast_vote` with the
same token hash but an invalid choice fails with the invalid-candidate
error, not `DoubleVote`. -/
theorem castVote_spent_not_always_doubleVote_cex :
    (castVote ⟨[⟨0, "t", [], "p", 0, "h"⟩], [], ["aa"]⟩ "aa" "Mallory" "s" "1.0" "2.0" 0).map
        (fun r => r.1.error) = some (some CastError.invalidCandidate) ∧
      some CastError.invalidCandidate ≠ some CastError.doubleVote := by
  constructor
  · decide
  · decide

/-- C2 amended: once a nullifier is in the spent set, every subsequent
`cast_vote` carrying it fails — with `DoubleVote` when the choice is
valid, with the invalid-candidate error otherwise — and returns the
ledger state (chain, spent set, pending list, hence also the tallies)
unchanged. -/
theorem castVote_spent_rejected_unchanged (s : LedgerState)
    (nf cand sig ts1 ts2 : String) (fuel : Nat)
    (h : s.spent_tokens.contains nf = true) :
    castVote s nf cand sig ts1 ts2 fuel =
      some (⟨false, some (if CANDIDATES.contains cand then CastError.doubleVote
                          else CastError.invalidCandidate), none, none⟩, s) ∧
    (castVote s nf cand sig ts1 ts2 fuel).map (fun r => getTallies r.2) =
      some (getTallies s) := by
  have h1 : castVote s nf cand sig ts1 ts2 fuel =
      some (⟨false, some (if CANDIDATES.contains cand then CastError.doubleVote
                          else CastError.invalidCandidate), none, none⟩, s) := by
    have hm : nf ∈ s.spent_tokens := by simpa using h
    unfold castVote
    by_cases hc : cand ∈ CANDIDATES
    · simp [hc, hm]
    · simp [hc]
  exact ⟨h1, by rw [h1]; rfl⟩

/-- Witness for C2 (amended) at a concrete state: the second use of
token hash `"bb"` with a valid choice yields `DoubleVote` and the state
is returned verbatim. -/
theorem castVote_spent_rejected_unchanged_witness :
    castVote ⟨[⟨0, "t", [], "p", 0, "h"⟩], [], ["bb"]⟩ "bb" "Candidate A" "s" "1.0" "2.0" 0 =
      some (⟨false, some CastError.doubleVote, none, none⟩,
            ⟨[⟨0, "t", [], "p", 0, "h"⟩], [], ["bb"]⟩) :=
  ((castVote_spent_rejected_unchanged ⟨[⟨0, "t", [], "p", 0, "h"⟩], [], ["bb"]⟩
    "bb" "Candidate A" "s" "1.0" "2.0" 0 (by decide)).1).trans (by decide)

/-! ## C4 — proof of work and the genesis block -/

/-- C4 as frozen is false: `_load_or_init` creates the genesis block with
nonce 0 and never mines it, so the freshly initialized chain holds a
block whose hash does not begin with `DIFFICULTY` zero hex digits
(here at a concrete initialization timestamp). -/
theorem genesis_not_mined_cex :
    ((initLedger "1759276800.123456").chain.map
      fun b => strStartsWith b.hash difficultyZeros) = [false] := by decide

/-- C4 amended: every block appended by a successful `cast_vote` — i.e.
every non-genesis block the ledger itself creates — is mined and its hash
begins with `DIFFICULTY` (= 2) zero hex digits; the genesis block is
created unmined and in general violates the rule. -/
theorem castVote_appended_block_pow (s : LedgerState) (th cand sig ts1 ts2 : String)
    (fuel : Nat) (res : CastResult) (s' : LedgerState)
    (h : castVote s th cand sig ts1 ts2 fuel = some (res, s'))
    (hs : res.success = true) :
    ∃ mined, s'.chain = s.chain ++ [mined] ∧
      strStartsWith mined.hash difficultyZeros = true := by
  unfold castVote at h
  split at h
  · simp only [Option.some.injEq, Prod.mk.injEq] at h
    obtain ⟨hres, -⟩ := h
    subst hres
    simp at hs
  · split at h
    · simp only [Option.some.injEq, Prod.mk.injEq] at h
      obtain ⟨hres, -⟩ := h
      subst hres
      simp at hs
    · split at h
      · cases h
      · dsimp only at h
        split at h
        · cases h
        · rename_i mined hpow
          simp only [Option.some.injEq, Prod.mk.injEq] at h
          obtain ⟨-, hst⟩ := h
          subst hst
          exact ⟨mined, rfl, proofOfWork_pow _ _ _ hpow⟩

/-! ## C3 — where credential verification happens -/

/-- C3 as frozen is false: `cast_vote` performs no credential
verification. Concretely, signature 0 for token byte `0x2a` fails
`verify_signature` under the demonstration issuer key, yet `cast_vote`
invoked with that token's nullifier and an arbitrary signature succeeds,
appends a block, and marks the nullifier spent. -/
theorem castVote_no_verification_cex :
    verify_signature [42] 0 demoPub = false ∧
    (castVote ⟨[⟨0, "t", [], "p", 0, "h"⟩], [], []⟩ (tokenHash [42]) "Candidate A" "sig"
        "1700000000.5" "1700000001.000119" 5).map
      (fun r => (r.1.success, r.2.chain.length,
                 r.2.spent_tokens.contains (tokenHash [42]))) = some (true, 2, true) := by
  constructor
  · decide
  · decide

/-- C3 amended: the `InvalidCredential` rejection happens in the API
layer: whenever the decoded token and signature fail `verify_signature`,
`api_vote` rejects with the credential error before the ledger is
invoked, returning the ledger state unchanged; `cast_vote` itself never
verifies (counterexample above). -/
theorem apiVote_rejects_bad_credential (pub : PubKey) (ledger : LedgerState)
    (token_hex sig_b64 candidate ts1 ts2 : String) (fuel : Nat)
    (tokenBytes : List Nat) (sigInt : Nat)
    (h1 : pyStrip token_hex ≠ "") (h2 : pyStrip sig_b64 ≠ "")
    (h3 : pyStrip candidate ≠ "")
    (hcand : CANDIDATES.contains (pyStrip candidate) = true)
    (hhex : hex_to_token (pyStrip token_hex) = some tokenBytes)
    (hb64 : b64_to_int (pyStrip sig_b64) = some sigInt)
    (hver : verify_signature tokenBytes sigInt pub = false) :
    apiVote (some pub) ledger token_hex sig_b64 candidate ts1 ts2 fuel =
      some (ApiVoteOutcome.rejectedCredential, ledger) := by
  have hcand' : pyStrip candidate ∈ CANDIDATES := by simpa using hcand
  simp [apiVote, h1, h2, h3, hcand', hhex, hb64, hver]

/-- Witness for C3 (amended) at concrete inputs: token `"2a"`, signature
`"AA=="` (the integer 0), which fails verification under the
demonstration key; `api_vote` rejects and the ledger is untouched. -/
theorem apiVote_rejects_bad_credential_witness :
    apiVote (some demoPub) ⟨[⟨0, "t", [], "p", 0, "h"⟩], [], []⟩ "2a" "AA==" "Candidate A"
        "1.0" "2.0" 0 =
      some (ApiVoteOutcome.rejectedCredential, ⟨[⟨0, "t", [], "p", 0, "h"⟩], [], []⟩) :=
  apiVote_rejects_bad_credential demoPub ⟨[⟨0, "t", [], "p", 0, "h"⟩], [], []⟩
    "2a" "AA==" "Candidate A" "1.0" "2.0" 0 [42] 0
    (by decide) (by decide) (by decide) (by decide) (by decide) (by decide) (by decide)

/-- Witness for C4 (amended): a concrete successful `cast_vote` whose
appended block carries a `00`-prefixed hash. -/
theorem castVote_appended_block_pow_witness :
    ∃ mined,
      (⟨[⟨0, "t0", [], "p", 0, "hw"⟩,
         ⟨1, "1700000002.000129", [⟨"aa", "Candidate B", "1700000001.5", "s"⟩], "hw", 2,
          "00684747f0027083696ec58869e28eb82a68306658affb0c893bdb4d1928c534"⟩], [],
        ["aa"]⟩ : LedgerState).chain =
        (⟨[⟨0, "t0", [], "p", 0, "hw"⟩], [], []⟩ : LedgerState).chain ++ [mined] ∧
      strStartsWith mined.hash difficultyZeros = true :=
  castVote_appended_block_pow ⟨[⟨0, "t0", [], "p", 0, "hw"⟩], [], []⟩ "aa" "Candidate B" "s"
    "1700000001.5" "1700000002.000129" 5
    ⟨true, none, some "00684747f0027083696ec58869e28eb82a68306658affb0c893bdb4d1928c534", some 1⟩
    ⟨[⟨0, "t0", [], "p", 0, "hw"⟩,
      ⟨1, "1700000002.000129", [⟨"aa", "Candidate B", "1700000001.5", "s"⟩], "hw", 2,
       "00684747f0027083696ec58869e28eb82a68306658affb0c893bdb4d1928c534"⟩], [], ["aa"]⟩
    (by decide) rfl

/-! ## C8 — character-class validation of voter ids -/

/-- C8 as frozen is false: `issue_blind_token` never validates the
character class of `voter_id`. A seeded id containing a space — outside
`[A-Za-z0-9_]` — is served a blind signature, not rejected. -/
theorem issueToken_bad_charclass_accepted_cex :
    ("V 1".data.all specWordChar = false) ∧
    (issueBlindToken ⟨["V 1"], [], some demoKeys⟩ "V 1" "Kg==").1.success = true := by
  constructor
  · decide
  · decide

/-- Helper: the success path of `issue_blind_token` in closed form. -/
theorem issueBlindToken_success_eq (s : RegistryState) (vid b : String)
    (ks : RSAKeys) (bytes : List Nat)
    (helig : isEligible s vid = true)
    (hiss : hasTokenIssued s vid = false)
    (hkeys : s.issuerKeys = some ks)
    (hb : pyB64Decode b = some bytes) :
    issueBlindToken s vid b =
      (⟨true, some (int_to_b64 (blind_sign bytes ks.priv)), none⟩,
       ⟨s.eligible, registerVoter s.voters vid, s.issuerKeys⟩) := by
  unfold issueBlindToken
  rw [helig, hiss, hkeys, hb]
  rfl

/-- C8 amended: `issue_blind_token` applies no character-class check at
all — the outcome is decided solely by eligibility, issuance state, key
presence and base64 well-formedness, for every `voter_id` regardless of
its characters (the `[A-Za-z0-9_]`-style sanitization exists only at the
API layer, before the registry is reached). -/
theorem issueBlindToken_ignores_charclass (s : RegistryState) (vid b : String)
    (ks : RSAKeys) (bytes : List Nat)
    (helig : isEligible s vid = true)
    (hiss : hasTokenIssued s vid = false)
    (hkeys : s.issuerKeys = some ks)
    (hb : pyB64Decode b = some bytes) :
    (issueBlindToken s vid b).1.success = true := by
  rw [issueBlindToken_success_eq s vid b ks bytes helig hiss hkeys hb]

/-- Witness for C8 (amended) at the space-containing id `"V 1"`. -/
theorem issueBlindToken_ignores_charclass_witness :
    (issueBlindToken ⟨["V 1"], [], some demoKeys⟩ "V 1" "Kg==").1.success = true :=
  issueBlindToken_ignores_charclass ⟨["V 1"], [], some demoKeys⟩ "V 1" "Kg==" demoKeys [42]
    (by decide) (by decide) rfl (by decide)

/-! ## C5 — one-shot token issuance -/

theorem lookup_map_set_self : ∀ (vs : List (String × Bool)) (w : String),
    (vs.lookup w).isSome = true →
    ((vs.map fun p => if p.1 = w then (p.1, true) else p).lookup w) = some true := by
  intro vs w
  induction vs with
  | nil => intro h; simp [List.lookup] at h
  | cons p ps ih =>
      intro h
      obtain ⟨k, v⟩ := p
      simp only [List.map_cons]
      by_cases hk : k = w
      · rw [if_pos hk]
        have hb : (w == k) = true := beq_iff_eq.mpr hk.symm
        simp only [List.lookup, hb]
      · rw [if_neg hk]
        have hb : (w == k) = false := beq_eq_false_iff_ne.mpr (fun he => hk he.symm)
        simp only [List.lookup, hb] at h ⊢
        exact ih h

theorem lookup_map_set_other : ∀ (vs : List (String × Bool)) (w v : String), v ≠ w →
    ((vs.map fun p => if p.1 = w then (p.1, true) else p).lookup v) = vs.lookup v := by
  intro vs w v hne
  induction vs with
  | nil => rfl
  | cons p ps ih =>
      obtain ⟨k, v'⟩ := p
      simp only [List.map_cons]
      by_cases hk : k = w
      · rw [if_pos hk]
        have hb : (v == k) = false := beq_eq_false_iff_ne.mpr (fun he => hne (he.trans hk))
        simp only [List.lookup, hb]
        exact ih
      · rw [if_neg hk]
        simp only [List.lookup]
        cases hkv : (v == k) with
        | true => rfl
        | false => exact ih

theorem lookup_append_isSome : ∀ (vs l2 : List (String × Bool)) (v : String),
    (vs.lookup v).isSome = true → (vs ++ l2).lookup v = vs.lookup v := by
  intro vs l2 v
  induction vs with
  | nil => intro h; simp [List.lookup] at h
  | cons p ps ih =>
      intro h
      obtain ⟨k, v'⟩ := p
      simp only [List.cons_append, List.lookup] at h ⊢
      cases hk : (v == k) with
      | true => simp only [hk]
      | false => simp only [hk] at h ⊢; exact ih h

theorem lookup_append_none : ∀ (vs l2 : List (String × Bool)) (v : String),
    vs.lookup v = none → (vs ++ l2).lookup v = l2.lookup v := by
  intro vs l2 v
  induction vs with
  | nil => intro _; rfl
  | cons p ps ih =>
      intro h
      obtain ⟨k, v'⟩ := p
      simp only [List.cons_append, List.lookup] at h ⊢
      cases hk : (v == k) with
      | true => simp only [hk] at h; cases h
      | false => simp only [hk] at h ⊢; exact ih h

/-- After `register_voter vid`, the `token_issued` flag of `vid` reads 1. -/
theorem registerVoter_lookup_self (vs : List (String × Bool)) (w : String) :
    (registerVoter vs w).lookup w = some true := by
  unfold registerVoter
  by_cases h : (vs.lookup w).isSome = true
  · rw [if_pos h]
    exact lookup_map_set_self vs w h
  · rw [if_neg h]
    rw [lookup_append_none vs _ w (Option.not_isSome_iff_eq_none.mp h)]
    simp [List.lookup]

/-- `register_voter` never lowers a `token_issued` flag. -/
theorem registerVoter_preserves_true (vs : List (String × Bool)) (w v : String)
    (h : vs.lookup v = some true) : (registerVoter vs w).lookup v = some true := by
  by_cases hv : v = w
  · subst hv; exact registerVoter_lookup_self vs v
  · unfold registerVoter
    by_cases hs : (vs.lookup w).isSome = true
    · rw [if_pos hs, lookup_map_set_other vs w v hv]
      exact h
    · rw [if_neg hs, lookup_append_isSome vs _ v (by rw [h]; rfl)]
      exact h

/-- `has_token_issued` reads true exactly when the row exists with flag 1. -/
theorem hasTokenIssued_iff (s : RegistryState) (vid : String) :
    hasTokenIssued s vid = true ↔ s.voters.lookup vid = some true := by
  unfold hasTokenIssued
  cases h : s.voters.lookup vid with
  | none => simp
  | some b => cases b <;> simp

/-- Seeding only ever adds eligible ids. -/
theorem mem_seedEligible : ∀ (ids el : List String) (vid : String),
    vid ∈ el → vid ∈ seedEligible el ids := by
  intro ids
  induction ids with
  | nil => intro el vid h; exact h
  | cons w ws ih =>
      intro el vid h
      unfold seedEligible
      simp only [List.foldl_cons]
      by_cases hw : el.contains w = true
      · rw [if_pos hw]; exact ih el vid h
      · rw [if_neg hw]; exact ih _ vid (List.mem_append_left _ h)

theorem isEligible_iff (s : RegistryState) (vid : String) :
    isEligible s vid = true ↔ vid ∈ s.eligible := by
  simp [isEligible]

/-- Monotonicity of the `token_issued` flag under one registry operation. -/
theorem applyRegOp_issued_mono (s : RegistryState) (op : RegOp) (vid : String)
    (h : hasTokenIssued s vid = true) :
    hasTokenIssued (applyRegOp s op) vid = true := by
  cases op with
  | seedOp ids => exact h
  | bootstrapOp ids fresh => exact h
  | issueOp w b =>
      show hasTokenIssued (issueBlindToken s w b).2 vid = true
      have hv : s.voters.lookup vid = some true := (hasTokenIssued_iff s vid).mp h
      unfold issueBlindToken
      split
      · exact h
      · split
        · exact h
        · split
          · exact h
          · split
            · exact h
            · exact (hasTokenIssued_iff _ vid).mpr (registerVoter_preserves_true _ _ _ hv)

/-- C5's invariant clause: `token_issued` never transitions back to
false under any sequence of registry operations. -/
theorem applyRegOps_issued_mono (ops : List RegOp) : ∀ (s : RegistryState) (vid : String),
    hasTokenIssued s vid = true → hasTokenIssued (applyRegOps s ops) vid = true := by
  induction ops with
  | nil => intro s vid h; exact h
  | cons op ops ih =>
      intro s vid h
      exact ih _ vid (applyRegOp_issued_mono s op vid h)

/-- Eligibility is never revoked by any registry operation. -/
theorem applyRegOp_eligible_mono (s : RegistryState) (op : RegOp) (vid : String)
    (h : isEligible s vid = true) :
    isEligible (applyRegOp s op) vid = true := by
  have hm : vid ∈ s.eligible := (isEligible_iff s vid).mp h
  cases op with
  | seedOp ids => exact (isEligible_iff _ vid).mpr (mem_seedEligible ids _ vid hm)
  | bootstrapOp ids fresh => exact (isEligible_iff _ vid).mpr (mem_seedEligible ids _ vid hm)
  | issueOp w b =>
      show isEligible (issueBlindToken s w b).2 vid = true
      unfold issueBlindToken
      split
      · exact h
      · split
        · exact h
        · split
          · exact h
          · split
            · exact h
            · exact h

theorem applyRegOps_eligible_mono (ops : List RegOp) : ∀ (s : RegistryState) (vid : String),
    isEligible s vid = true → isEligible (applyRegOps s ops) vid = true := by
  induction ops with
  | nil => intro s vid h; exact h
  | cons op ops ih =>
      intro s vid h
      exact ih _ vid (applyRegOp_eligible_mono s op vid h)

/-- An eligible voter whose flag is already 1 gets exactly the
`AlreadyIssued` rejection. -/
theorem issueBlindToken_already (t : RegistryState) (vid b2 : String)
    (he : isEligible t vid = true) (hi : hasTokenIssued t vid = true) :
    (issueBlindToken t vid b2).1 = ⟨false, none, some RegError.alreadyIssued⟩ := by
  unfold issueBlindToken
  rw [he, hi]
  rfl

/-- C5 as frozen is false: issuance success also requires the issuer
keys to exist. Seeding `"V2"` into a registry whose keystore was never
bootstrapped leaves `"V2"` eligible with well-formed input, yet the first
`issue_token` call fails with the issuer-uninitialized error rather than
succeeding. -/
theorem issuance_needs_keys_cex :
    isEligible (applyRegOp ⟨[], [], none⟩ (RegOp.seedOp ["V2"])) "V2" = true ∧
    (pyB64Decode "Kg==").isSome = true ∧
    (issueBlindToken (applyRegOp ⟨[], [], none⟩ (RegOp.seedOp ["V2"])) "V2" "Kg==").1 =
      ⟨false, none, some RegError.issuerUninitialized⟩ := by
  refine ⟨?_, ?_, ?_⟩ <;> decide

/-- C5 amended: in a registry state with initialized issuer keys, for
every seeded (eligible) voter id with well-formed blinded input whose
flag is not yet set, the first `issue_token` call succeeds and sets
`token_issued`; every later `issue_token` call for the same id — after
any sequence of registry operations — returns `AlreadyIssued`; and the
`token_issued` flag never transitions from true back to false under any
registry operation. -/
theorem issuance_one_shot (s : RegistryState) (vid b : String) (ks : RSAKeys)
    (bytes : List Nat)
    (helig : isEligible s vid = true)
    (hiss : hasTokenIssued s vid = false)
    (hkeys : s.issuerKeys = some ks)
    (hb : pyB64Decode b = some bytes) :
    (issueBlindToken s vid b).1.success = true ∧
    hasTokenIssued (issueBlindToken s vid b).2 vid = true ∧
    (∀ (ops : List RegOp) (b2 : String),
        (issueBlindToken (applyRegOps (issueBlindToken s vid b).2 ops) vid b2).1 =
          ⟨false, none, some RegError.alreadyIssued⟩) ∧
    (∀ (t : RegistryState) (ops : List RegOp), hasTokenIssued t vid = true →
        hasTokenIssued (applyRegOps t ops) vid = true) := by
  have hsucc := issueBlindToken_success_eq s vid b ks bytes helig hiss hkeys hb
  have hiss2 : hasTokenIssued (issueBlindToken s vid b).2 vid = true := by
    rw [hsucc]
    exact (hasTokenIssued_iff _ vid).mpr (registerVoter_lookup_self s.voters vid)
  have helig2 : isEligible (issueBlindToken s vid b).2 vid = true := by
    rw [hsucc]
    exact helig
  refine ⟨by rw [hsucc], hiss2, fun ops b2 => ?_, fun t ops ht => applyRegOps_issued_mono ops t vid ht⟩
  exact issueBlindToken_already _ vid b2
    (applyRegOps_eligible_mono ops _ vid helig2)
    (applyRegOps_issued_mono ops _ vid hiss2)

/-- Witness for C5 (amended): seeded `"V2"` with keys present — first
call succeeds, immediate second call answers `AlreadyIssued`. -/
theorem issuance_one_shot_witness :
    (issueBlindToken ⟨["V2"], [], some demoKeys⟩ "V2" "Kg==").1.success = true ∧
    (issueBlindToken (issueBlindToken ⟨["V2"], [], some demoKeys⟩ "V2" "Kg==").2 "V2" "AA==").1 =
      ⟨false, none, some RegError.alreadyIssued⟩ := by
  have h := issuance_one_shot ⟨["V2"], [], some demoKeys⟩ "V2" "Kg==" demoKeys [42]
    (by decide) (by decide) rfl (by decide)
  refine ⟨h.1, ?_⟩
  have h2 := h.2.2.1 [] "AA=="
  simpa [applyRegOps] using h2

/-! ## C6 — what `verify_chain` checks -/

/-- The `_is_valid` loop characterized positionally: starting after
`prev`, the walk succeeds iff every listed block matches its recomputed
hash and links to its predecessor's stored hash. -/
theorem chainOkFrom_iff : ∀ (l : List Block) (prev : Block),
    chainOkFrom prev l = true ↔
      ∀ (i : Nat) (cur pb : Block), l.get? i = some cur → (prev :: l).get? i = some pb →
        (cur.hash = computeHash cur ∧ cur.previous_hash = pb.hash) := by
  intro l
  induction l with
  | nil =>
      intro prev
      constructor
      · intro _ i cur pb hc _
        simp at hc
      · intro _
        rfl
  | cons c rest ih =>
      intro prev
      unfold chainOkFrom
      rw [Bool.and_eq_true, Bool.and_eq_true]
      constructor
      · rintro ⟨⟨h1, h2⟩, h3⟩ i cur pb hc hp
        cases i with
        | zero =>
            cases hc
            cases hp
            exact ⟨beq_iff_eq.mp h1, beq_iff_eq.mp h2⟩
        | succ j =>
            exact (ih c).mp h3 j cur pb hc hp
      · intro h
        have h0 := h 0 c prev rfl rfl
        exact ⟨⟨beq_iff_eq.mpr h0.1, beq_iff_eq.mpr h0.2⟩,
          (ih c).mpr fun j cur pb hc hp => h (j + 1) cur pb hc hp⟩

/-- C6: `verify_chain` reports `valid = true` iff for every
`i ∈ [1, len)` block `i`'s stored hash equals the hash recomputed from
its stored fields and its `previous_hash` equals block `i-1`'s stored
hash. The right-hand side contains no proof-of-work condition (the
difficulty of no block is re-checked), and the ← direction contraposed
is: any single mismatch forces `valid = false`. -/
theorem verifyChain_valid_iff (s : LedgerState) :
    (verifyChain s).valid = true ↔
      ∀ (i : Nat) (cur pb : Block),
        s.chain.get? (i + 1) = some cur → s.chain.get? i = some pb →
        (cur.hash = computeHash cur ∧ cur.previous_hash = pb.hash) := by
  show isValid s.chain = true ↔ _
  cases hc : s.chain with
  | nil =>
      constructor
      · intro _ i cur pb h1 _
        simp at h1
      · intro _
        rfl
  | cons b rest =>
      unfold isValid
      rw [chainOkFrom_iff rest b]
      exact Iff.rfl

/-! ## C7 / C10 — tallies -/

theorem bumpTally_fst (t : List (String × Nat)) (c : String) :
    (bumpTally t c).map Prod.fst = t.map Prod.fst := by
  unfold bumpTally
  rw [List.map_map]
  congr 1
  funext p
  by_cases hp : p.1 = c <;> simp [hp]

theorem applyVote_fst (t : List (String × Nat)) (v : Vote) :
    (applyVote t v).map Prod.fst = t.map Prod.fst := by
  unfold applyVote
  split
  · exact bumpTally_fst t v.candidate
  · rfl

theorem foldVotes_fst : ∀ (vs : List Vote) (t : List (String × Nat)),
    ((vs.foldl applyVote t).map Prod.fst) = t.map Prod.fst := by
  intro vs
  induction vs with
  | nil => intro t; rfl
  | cons v vs ih => intro t; rw [List.foldl_cons, ih, applyVote_fst]

theorem foldBlocks_fst : ∀ (bs : List Block) (t : List (String × Nat)),
    ((bs.foldl (fun t b => b.votes.foldl applyVote t) t).map Prod.fst) = t.map Prod.fst := by
  intro bs
  induction bs with
  | nil => intro t; rfl
  | cons b bs ih => intro t; rw [List.foldl_cons, ih, foldVotes_fst]

/-- The nested block/vote fold of `get_tallies` equals one fold over the
concatenated vote records of blocks 1..end. -/
theorem foldBlocks_flatten : ∀ (bs : List Block) (t : List (String × Nat)),
    bs.foldl (fun t b => b.votes.foldl applyVote t) t =
      ((bs.map fun b => b.votes).flatten).foldl applyVote t := by
  intro bs
  induction bs with
  | nil => intro t; rfl
  | cons b bs ih =>
      intro t
      rw [List.foldl_cons, List.map_cons, List.flatten_cons, List.foldl_append, ih]

theorem lookup_bumpTally_self : ∀ (t : List (String × Nat)) (c : String),
    (bumpTally t c).lookup c = (t.lookup c).map (· + 1) := by
  intro t c
  induction t with
  | nil => rfl
  | cons p ps ih =>
      obtain ⟨k, x⟩ := p
      simp only [bumpTally, List.map_cons] at ih ⊢
      by_cases hk : k = c
      · rw [if_pos hk]
        have hck : (c == k) = true := beq_iff_eq.mpr hk.symm
        simp only [List.lookup, hck]
        rfl
      · rw [if_neg hk]
        have hck : (c == k) = false := beq_eq_false_iff_ne.mpr fun he => hk he.symm
        simp only [List.lookup, hck]
        exact ih

theorem lookup_bumpTally_other : ∀ (t : List (String × Nat)) (c c' : String), c' ≠ c →
    (bumpTally t c).lookup c' = t.lookup c' := by
  intro t c c' hne
  induction t with
  | nil => rfl
  | cons p ps ih =>
      obtain ⟨k, x⟩ := p
      simp only [bumpTally, List.map_cons] at ih ⊢
      by_cases hk : k = c
      · rw [if_pos hk]
        have hck : (c' == k) = false := beq_eq_false_iff_ne.mpr fun he => hne (he.trans hk)
        simp only [List.lookup, hck]
        exact ih
      · rw [if_neg hk]
        simp only [List.lookup]
        cases hck : (c' == k) with
        | true => rfl
        | false => exact ih

theorem tallyHasKey_isSome : ∀ (t : List (String × Nat)) (c : String),
    tallyHasKey t c = (t.lookup c).isSome := by
  intro t c
  induction t with
  | nil => rfl
  | cons p ps ih =>
      obtain ⟨k, x⟩ := p
      simp only [tallyHasKey, List.any_cons] at ih ⊢
      by_cases hk : k = c
      · have h1 : (k == c) = true := beq_iff_eq.mpr hk
        have h2 : (c == k) = true := beq_iff_eq.mpr hk.symm
        simp only [List.lookup, h1, h2, Bool.true_or, Option.isSome_some]
      · have h1 : (k == c) = false := beq_eq_false_iff_ne.mpr hk
        have h2 : (c == k) = false := beq_eq_false_iff_ne.mpr fun he => hk he.symm
        simp only [List.lookup, h1, h2, Bool.false_or]
        exact ih

/-- A vote for a candidate other than `c` leaves `c`'s tally entry
unchanged. -/
theorem lookup_applyVote_other (t : List (String × Nat)) (v : Vote) (c : String)
    (hv : v.candidate ≠ c) : (applyVote t v).lookup c = t.lookup c := by
  unfold applyVote
  split
  · exact lookup_bumpTally_other t v.candidate c (Ne.symm hv)
  · rfl

/-- The tally read off after folding a vote list: the starting value plus
the number of folded votes carrying that candidate (votes whose
candidate is not a dict key change nothing). -/
theorem lookup_foldVotes : ∀ (vs : List Vote) (t : List (String × Nat)) (c : String),
    (vs.foldl applyVote t).lookup c =
      (t.lookup c).map (· + (vs.filter fun v => v.candidate == c).length) := by
  intro vs
  induction vs with
  | nil =>
      intro t c
      cases h : t.lookup c <;> simp [h]
  | cons v vs ih =>
      intro t c
      rw [List.foldl_cons, ih]
      by_cases hv : v.candidate = c
      · have hvb : (v.candidate == c) = true := beq_iff_eq.mpr hv
        have hfl : (List.filter (fun v' => v'.candidate == c) (v :: vs)).length =
            (List.filter (fun v' => v'.candidate == c) vs).length + 1 := by
          simp [List.filter_cons, hvb]
        rw [hfl]
        unfold applyVote
        by_cases hk : tallyHasKey t v.candidate = true
        · rw [if_pos hk, hv, lookup_bumpTally_self]
          cases h : t.lookup c
          · rfl
          · simp only [Option.map]
            congr 1
            omega
        · rw [if_neg hk]
          rw [tallyHasKey_isSome, hv] at hk
          have hnone : t.lookup c = none := Option.not_isSome_iff_eq_none.mp hk
          simp [hnone]
      · rw [lookup_applyVote_other t v c hv]
        have hvb : (v.candidate == c) = false := beq_eq_false_iff_ne.mpr hv
        simp [List.filter_cons, hvb]

theorem lookup_zeroInit : ∀ (l : List String) (c : String), c ∈ l →
    ((l.map fun x => (x, 0)).lookup c) = some 0 := by
  intro l c
  induction l with
  | nil => intro h; cases h
  | cons k ks ih =>
      intro h
      simp only [List.map_cons, List.lookup]
      by_cases hk : (c == k) = true
      · simp [hk]
      · simp only [hk]
        rcases List.mem_cons.mp h with he | hm
        · exact absurd (beq_iff_eq.mpr he) (by simpa using hk)
        · exact ih hm

/-- C7: `get_tallies` returns a dict whose key list is exactly
`CANDIDATES` (zero-initialized for every member), and every member's
value is the number of vote records with that choice in blocks 1..end
(genesis excluded). -/
theorem getTallies_spec (s : LedgerState) :
    (getTallies s).map Prod.fst = CANDIDATES ∧
    ∀ c, c ∈ CANDIDATES → (getTallies s).lookup c = some (specVoteCount s c) := by
  constructor
  · unfold getTallies
    rw [foldBlocks_fst, List.map_map]
    exact List.map_id CANDIDATES ▸ rfl
  · intro c hc
    unfold getTallies
    rw [foldBlocks_flatten, lookup_foldVotes, lookup_zeroInit CANDIDATES c hc]
    simp [specVoteCount]

/-- Witness for C7 on a concrete two-block chain: one `"Candidate A"`
vote in block 1 tallies to 1. -/
theorem getTallies_spec_witness :
    (getTallies ⟨[⟨0, "t", [], "p", 0, "h"⟩,
        ⟨1, "t1", [⟨"aa", "Candidate A", "t1", "s"⟩], "h", 0, "h1"⟩], [], ["aa"]⟩).lookup
      "Candidate A" = some 1 :=
  ((getTallies_spec ⟨[⟨0, "t", [], "p", 0, "h"⟩,
      ⟨1, "t1", [⟨"aa", "Candidate A", "t1", "s"⟩], "h", 0, "h1"⟩], [], ["aa"]⟩).2
    "Candidate A" (by decide)).trans (by decide)

theorem tallySum_bump_not_mem : ∀ (t : List (String × Nat)) (c : String),
    c ∉ t.map Prod.fst → bumpTally t c = t := by
  intro t c
  induction t with
  | nil => intro _; rfl
  | cons p ps ih =>
      intro h
      obtain ⟨k, x⟩ := p
      simp only [List.map_cons, List.mem_cons, not_or] at h
      simp only [bumpTally, List.map_cons] at ih ⊢
      rw [if_neg fun he => h.1 he.symm, ih h.2]

theorem tallySum_bump_nodup : ∀ (t : List (String × Nat)) (c : String),
    (t.map Prod.fst).Nodup → c ∈ t.map Prod.fst →
    tallySum (bumpTally t c) = tallySum t + 1 := by
  intro t c
  induction t with
  | nil => intro _ h; cases h
  | cons p ps ih =>
      intro hnd hm
      obtain ⟨k, x⟩ := p
      simp only [List.map_cons, List.nodup_cons] at hnd
      simp only [bumpTally, List.map_cons] at ih ⊢
      by_cases hk : k = c
      · have hnot : c ∉ ps.map Prod.fst := hk ▸ hnd.1
        rw [if_pos hk]
        have hfix : List.map (fun p => if p.1 = c then (p.1, p.2 + 1) else p) ps = ps := by
          have := tallySum_bump_not_mem ps c hnot
          simpa [bumpTally] using this
        rw [hfix]
        simp only [tallySum, List.map_cons, List.sum_cons]
        omega
      · have hm' : c ∈ ps.map Prod.fst := by
          rcases List.mem_cons.mp hm with he | h'
          · exact absurd he.symm hk
          · exact h'
        rw [if_neg hk]
        simp only [tallySum, List.map_cons, List.sum_cons] at ih ⊢
        rw [ih hnd.2 hm']
        omega

theorem tallyHasKey_contains : ∀ (t : List (String × Nat)) (c : String),
    tallyHasKey t c = (t.map Prod.fst).contains c := by
  intro t c
  induction t with
  | nil => rfl
  | cons p ps ih =>
      obtain ⟨k, x⟩ := p
      simp only [tallyHasKey, List.any_cons, List.map_cons, List.contains_cons] at ih ⊢
      rw [ih]
      by_cases hk : k = c
      · rw [beq_iff_eq.mpr hk, beq_iff_eq.mpr hk.symm]
      · rw [beq_eq_false_iff_ne.mpr hk, beq_eq_false_iff_ne.mpr fun he => hk he.symm]

/-- Folding votes adds to the total tally exactly one per vote whose
candidate is a `CANDIDATES` member (keys stay `CANDIDATES` throughout). -/
theorem tallySum_foldVotes : ∀ (vs : List Vote) (t : List (String × Nat)),
    t.map Prod.fst = CANDIDATES →
    tallySum (vs.foldl applyVote t) =
      tallySum t + (vs.filter fun v => CANDIDATES.contains v.candidate).length := by
  intro vs
  induction vs with
  | nil => intro t _; rfl
  | cons v vs ih =>
      intro t hkeys
      rw [List.foldl_cons, ih _ (by rw [applyVote_fst, hkeys])]
      have hnd : (t.map Prod.fst).Nodup := by rw [hkeys]; decide
      unfold applyVote
      by_cases hk : tallyHasKey t v.candidate = true
      · rw [if_pos hk]
        have hmem : v.candidate ∈ t.map Prod.fst := by
          rw [tallyHasKey_contains] at hk
          simpa using hk
        rw [tallySum_bump_nodup t v.candidate hnd hmem]
        have hcontains : CANDIDATES.contains v.candidate = true := by
          rw [tallyHasKey_contains, hkeys] at hk
          exact hk
        rw [List.filter_cons, if_pos hcontains, List.length_cons]
        omega
      · rw [if_neg hk]
        have hcontains : CANDIDATES.contains v.candidate = false := by
          rw [tallyHasKey_contains, hkeys] at hk
          exact Bool.eq_false_iff.mpr hk
        rw [List.filter_cons, if_neg (by rw [hcontains]; exact Bool.false_ne_true)]

/-- C10: vote records whose candidate is outside `CANDIDATES` are
silently ignored by `get_tallies` — the tally total counts exactly the
votes with whitelisted candidates — and on a concrete loadable chain
(passing `_is_valid`) holding a `"Mallory"` vote, the tally total is
strictly below `get_stats`' `total_votes`. -/
theorem getTallies_ignores_unknown :
    (∀ s : LedgerState, tallySum (getTallies s) = specKnownVoteCount s) ∧
    isValid badChainState.chain = true ∧
    tallySum (getTallies badChainState) < (getStats badChainState).total_votes := by
  refine ⟨fun s => ?_, by decide, by decide⟩
  unfold getTallies
  rw [foldBlocks_flatten, tallySum_foldVotes _ _ (by rw [List.map_map]; exact List.map_id CANDIDATES ▸ rfl)]
  have hz : tallySum (CANDIDATES.map fun c => (c, 0)) = 0 := by decide
  rw [hz, Nat.zero_add]
  rfl

/-! ## C1 — blind-signature correctness law -/

theorem bytesToNat_append_singleton (l : List Nat) (b : Nat) :
    bytesToNat (l ++ [b]) = bytesToNat l * 256 + b := by
  unfold bytesToNat
  rw [List.foldl_append]
  rfl

theorem bytesToNat_natToBytesBE : ∀ (k x : Nat),
    bytesToNat (natToBytesBE k x) = x % 256 ^ k := by
  intro k
  induction k with
  | zero =>
      intro x
      simp [natToBytesBE, bytesToNat, Nat.mod_one]
  | succ m ih =>
      intro x
      unfold natToBytesBE
      rw [bytesToNat_append_singleton, ih, Nat.shiftRight_eq_div_pow]
      have h1 : (256 : Nat) ^ (m + 1) = 256 * 256 ^ m := by
        rw [pow_succ, Nat.mul_comm]
      have h2 : (2 : Nat) ^ 8 = 256 := by norm_num
      rw [h1, Nat.mod_mul, h2]
      omega

theorem bitLength_bound (x : Nat) : x < 2 ^ bitLength x := by
  unfold bitLength
  by_cases h : x = 0
  · simp [h]
  · rw [if_neg h]
    exact Nat.lt_log2_self

/-- `int.from_bytes(x.to_bytes((x.bit_length()+7)//8, "big"), "big") = x`:
the byte round-trip of the blinded integer is the identity. -/
theorem bytesToNat_natToBytesMin (x : Nat) : bytesToNat (natToBytesMin x) = x := by
  unfold natToBytesMin
  rw [bytesToNat_natToBytesBE]
  apply Nat.mod_eq_of_lt
  have h1 : x < 2 ^ bitLength x := bitLength_bound x
  have h2 : (2 : Nat) ^ bitLength x ≤ 2 ^ (8 * ((bitLength x + 7) / 8)) :=
    Nat.pow_le_pow_right (by norm_num) (by omega)
  have h3 : (256 : Nat) ^ ((bitLength x + 7) / 8) = 2 ^ (8 * ((bitLength x + 7) / 8)) := by
    rw [Nat.pow_mul]
  omega

/-- `pow(r, -1, n)` succeeds on coprime input and returns a modular
inverse of `r`. -/
theorem pyModInv_spec (r n : Nat) (hn : n ≠ 0) (hg : Nat.gcd r n = 1) :
    pyModInv r n = some ((Nat.gcdA r n % (n : Int) + n) % n).toNat ∧
    r * ((Nat.gcdA r n % (n : Int) + n) % n).toNat ≡ 1 [MOD n] := by
  constructor
  · unfold pyModInv
    rw [if_neg hn, if_pos hg]
  · have hn' : (0 : Int) < (n : Int) := by exact_mod_cast Nat.pos_of_ne_zero hn
    set z : Int := (Nat.gcdA r n % (n : Int) + n) % n with hzdef
    have hz0 : (0 : Int) ≤ z := Int.emod_nonneg _ (by omega)
    apply (ZMod.natCast_eq_natCast_iff _ _ _).mp
    push_cast
    have hzc : ((z.toNat : Nat) : ZMod n) = ((z : Int) : ZMod n) := by
      rw [← Int.cast_natCast, Int.toNat_of_nonneg hz0]
    rw [hzc, hzdef]
    rw [ZMod.intCast_mod, Int.cast_add, ZMod.intCast_mod, Int.cast_natCast,
      ZMod.natCast_self, add_zero]
    have hb := Nat.gcd_eq_gcd_ab r n
    rw [hg] at hb
    have hbz : ((1 : Nat) : Int) = (r : Int) * Nat.gcdA r n + (n : Int) * Nat.gcdB r n := hb
    have hcast := congrArg (fun t : Int => ((t : Int) : ZMod n)) hbz
    push_cast at hcast
    rw [ZMod.natCast_self, zero_mul, add_zero] at hcast
    rw [← hcast]

/-- Fermat's little theorem lifted to exponents `≡ 1 (mod p-1)`. -/
theorem pow_modEq_self_prime (p : Nat) (hp : p.Prime) (k : Nat)
    (hk : k ≡ 1 [MOD p - 1]) (hk1 : 1 ≤ k) (x : Nat) : x ^ k ≡ x [MOD p] := by
  haveI := Fact.mk hp
  apply (ZMod.natCast_eq_natCast_iff _ _ _).mp
  push_cast
  obtain ⟨m, hm⟩ : ∃ m, k = (p - 1) * m + 1 := by
    obtain ⟨m, hm'⟩ := (Nat.modEq_iff_dvd' hk1).mp hk.symm
    exact ⟨m, by omega⟩
  rw [hm, pow_add, pow_mul, pow_one]
  by_cases hy : (x : ZMod p) = 0
  · rw [hy, mul_zero]
  · rw [ZMod.pow_card_sub_one_eq_one hy, one_pow, one_mul]

/-- The RSA cycle law: for `n = p·q` (distinct primes) and
`e·d ≡ 1 (mod φ(n))`, `x^(e·d) ≡ x (mod n)` for every `x` — including
the non-units. -/
theorem rsa_pow_cycle (p q e d : Nat) (hp : p.Prime) (hq : q.Prime) (hne : p ≠ q)
    (hed : e * d ≡ 1 [MOD Nat.totient (p * q)]) (x : Nat) :
    x ^ (e * d) ≡ x [MOD p * q] := by
  have hcop : Nat.Coprime p q := (Nat.coprime_primes hp hq).mpr hne
  have htot : Nat.totient (p * q) = (p - 1) * (q - 1) := by
    rw [Nat.totient_mul hcop, Nat.totient_prime hp, Nat.totient_prime hq]
  have hp2 := hp.two_le
  have hq2 := hq.two_le
  have hbig : 2 ≤ (p - 1) * (q - 1) := by
    rcases Nat.lt_or_ge p 3 with h3 | h3
    · have hq3 : 3 ≤ q := by
        rcases Nat.lt_or_ge q 3 with h | h
        · exact absurd (by omega : p = q) hne
        · exact h
      calc 2 ≤ 1 * (q - 1) := by omega
        _ ≤ (p - 1) * (q - 1) := Nat.mul_le_mul_right _ (by omega)
    · calc 2 = 2 * 1 := by norm_num
        _ ≤ (p - 1) * (q - 1) := Nat.mul_le_mul (by omega) (by omega)
  rw [htot] at hed
  have hed1 : 1 ≤ e * d := by
    by_contra hlt
    have h0 : e * d = 0 := by omega
    rw [h0] at hed
    have hmm : (0 : Nat) % ((p - 1) * (q - 1)) = 1 % ((p - 1) * (q - 1)) := hed
    rw [Nat.zero_mod, Nat.mod_eq_of_lt (by omega)] at hmm
    omega
  have hedp : e * d ≡ 1 [MOD p - 1] :=
    Nat.ModEq.of_dvd (dvd_mul_right (p - 1) (q - 1)) hed
  have hedq : e * d ≡ 1 [MOD q - 1] :=
    Nat.ModEq.of_dvd (dvd_mul_left (q - 1) (p - 1)) hed
  exact (Nat.modEq_and_modEq_iff_modEq_mul hcop).mp
    ⟨pow_modEq_self_prime p hp _ hedp hed1 x, pow_modEq_self_prime q hq _ hedq hed1 x⟩

/-- C1 as frozen is false: `blind_token` accepts blinding factors that
are not coprime to `n` (its sampling loop only requires `1 < r < n`),
and for such a draw `unblind_signature` raises (`pow(r, -1, n)` has no
inverse), so the composition cannot return a verifying credential.
Concrete instance: the keypair `(n,e,d) = (15,3,3)` with `p=3, q=5`,
token `0x2a`, and the accepted draw `r = 3`. -/
theorem blind_composition_fails_noncoprime_cex :
    IsRSAKeypair 3 5 demoPriv demoPub ∧ BlindingDraw demoPub.n 3 ∧
    ¬∃ sig, unblind_signature (blind_sign (blind_token [42] demoPub 3).1 demoPriv) 3 demoPub =
        some sig ∧ verify_signature [42] sig demoPub = true := by
  refine ⟨by decide, by decide, ?_⟩
  rintro ⟨sig, hs, -⟩
  rw [show unblind_signature (blind_sign (blind_token [42] demoPub 3).1 demoPriv) 3 demoPub =
      none from by decide] at hs
  exact Option.noConfusion hs

/-- C1 amended: for every RSA keypair, token, and accepted blinding draw
`r` that is moreover coprime to `n`, the blind–sign–unblind–verify
composition produces a verifying credential. -/
theorem blind_signature_correct (p q : Nat) (priv : PrivKey) (pub : PubKey)
    (hK : IsRSAKeypair p q priv pub) (token : List Nat) (r : Nat)
    (_hr : BlindingDraw pub.n r) (hcop : Nat.gcd r pub.n = 1) :
    ∃ sig, unblind_signature (blind_sign (blind_token token pub r).1 priv) r pub = some sig ∧
      verify_signature token sig pub = true := by
  obtain ⟨hp, hq, hne, hprivn, hpubn, hed⟩ := hK
  have hn0 : pub.n ≠ 0 := by
    rw [hpubn]
    have := hp.two_le
    have := hq.two_le
    positivity
  obtain ⟨hmi, hmod⟩ := pyModInv_spec r pub.n hn0 hcop
  set inv : Nat := ((Nat.gcdA r pub.n % (pub.n : Int) + pub.n) % pub.n).toNat with hinvdef
  set H : Nat := bytesToNat (sha256Bytes token) with hHdef
  have hpq : priv.n = pub.n := by rw [hprivn, hpubn]
  have hBN : bytesToNat (blind_token token pub r).1 =
      H % pub.n * (r ^ pub.e % pub.n) % pub.n := by
    unfold blind_token
    exact bytesToNat_natToBytesMin _
  have hsig : blind_sign (blind_token token pub r).1 priv =
      (H % pub.n * (r ^ pub.e % pub.n) % pub.n) ^ priv.d % pub.n := by
    unfold blind_sign
    rw [hBN, hpq]
  refine ⟨blind_sign (blind_token token pub r).1 priv * inv % pub.n, ?_, ?_⟩
  · unfold unblind_signature
    rw [hmi]
    rfl
  · unfold verify_signature
    apply beq_iff_eq.mpr
    have hver : (blind_sign (blind_token token pub r).1 priv * inv % pub.n) ^ pub.e ≡ H
        [MOD pub.n] := by
      apply (ZMod.natCast_eq_natCast_iff _ _ _).mp
      rw [hsig]
      push_cast [ZMod.natCast_mod]
      set M : ZMod pub.n := ((H : Nat) : ZMod pub.n) with hM
      set R : ZMod pub.n := ((r : Nat) : ZMod pub.n) with hR
      set I : ZMod pub.n := ((inv : Nat) : ZMod pub.n) with hI
      have hRI : R * I = 1 := by
        have hc := (ZMod.natCast_eq_natCast_iff _ _ _).mpr hmod
        push_cast at hc
        exact hc
      have hMcyc : M ^ (pub.e * priv.d) = M := by
        have hc := (ZMod.natCast_eq_natCast_iff _ _ _).mpr
          (hpubn ▸ rsa_pow_cycle p q pub.e priv.d hp hq hne hed H)
        push_cast at hc
        exact hc
      have hRcyc : R ^ (pub.e * priv.d) = R := by
        have hc := (ZMod.natCast_eq_natCast_iff _ _ _).mpr
          (hpubn ▸ rsa_pow_cycle p q pub.e priv.d hp hq hne hed r)
        push_cast at hc
        exact hc
      calc ((M * R ^ pub.e) ^ priv.d * I) ^ pub.e
          = ((M ^ priv.d * R ^ (pub.e * priv.d)) * I) ^ pub.e := by
            rw [mul_pow M (R ^ pub.e) priv.d, ← pow_mul]
        _ = ((M ^ priv.d * R) * I) ^ pub.e := by rw [hRcyc]
        _ = (M ^ priv.d * (R * I)) ^ pub.e := by rw [mul_assoc]
        _ = (M ^ priv.d) ^ pub.e := by rw [hRI, mul_one]
        _ = M ^ (priv.d * pub.e) := (pow_mul M priv.d pub.e).symm
        _ = M ^ (pub.e * priv.d) := by rw [Nat.mul_comm]
        _ = M := hMcyc
    exact hver

/-- Witness for C1 (amended) at the demonstration keypair, token `0x2a`,
and the coprime draw `r = 2`. -/
theorem blind_signature_correct_witness :
    ∃ sig, unblind_signature (blind_sign (blind_token [42] demoPub 2).1 demoPriv) 2 demoPub =
        some sig ∧ verify_signature [42] sig demoPub = true :=
  blind_signature_correct 3 5 demoPriv demoPub (by decide) [42] 2 (by decide) (by decide)

end SecureVote
